import Mathlib

/-!
Verification of the borealis UI library core (application run loop, focus
navigation, action dispatch, view-stack transitions, platform driver button
edge-triggering), shallowly embedded from the C++ sources in
`library/lib/application.cpp`, `library/lib/platform_drivers/platform_driver.cpp`
and the headers `actions.hpp` / `platform_driver.hpp`.

Machine integers (`unsigned long` button masks) are modelled as `Nat` with
bitwise operations; the 64-bit complement used by the driver is modelled as
XOR against the 64-bit all-ones mask.  The `float frameTime` member is
modelled as an exact rational; the C cast `(retro_time_t)` of a nonnegative
float is modelled as the floor.  The input-block counter (a C++ `int`) is
modelled as `Int`.

Views (class `View`) are external collaborators whose sources are not part of
the analysed tree; the pieces of their behaviour the core depends on
(parent links, default focus, translucency, the hidden flag toggled by
`show`/`hide`) are modelled from the spec as an immutable environment plus
per-view mutable flags in the application state.
-/

namespace Borealis

/-! ## Button masks (`enum Key` of `platform_driver.hpp`) -/

def KEY_A : Nat := 1
def KEY_B : Nat := 2
def KEY_X : Nat := 4
def KEY_Y : Nat := 8
def KEY_LSTICK : Nat := 16
def KEY_RSTICK : Nat := 32
def KEY_L : Nat := 64
def KEY_R : Nat := 128
def KEY_PLUS : Nat := 256
def KEY_MINUS : Nat := 512
def KEY_DLEFT : Nat := 1024
def KEY_DUP : Nat := 2048
def KEY_DRIGHT : Nat := 4096
def KEY_DDOWN : Nat := 8192

/-! ## Platform driver button snapshots (`platform_driver.cpp`)

The driver keeps two `unsigned long` snapshots, `gamepadDown` (current) and
`gamepadDownOld` (previous frame).  `keysDown`, `keysUp`, `keysHeld`,
`isAnyKeyDown` and `haveKeyStatesChanged` are pure functions of the two
snapshots. -/

/-- All-ones mask of an `unsigned long`; `~x` in the C++ source is modelled
as `ULONG_MASK ^^^ x`. -/
def ULONG_MASK : Nat := 2 ^ 64 - 1

structure PlatformDriver where
  gamepadDown : Nat
  gamepadDownOld : Nat
deriving DecidableEq, Repr

/-- `PlatformDriver::keysDown`: `(~gamepadDownOld) & gamepadDown`. -/
def keysDown (d : PlatformDriver) : Nat :=
  (ULONG_MASK ^^^ d.gamepadDownOld) &&& d.gamepadDown

/-- `PlatformDriver::keysUp`: `gamepadDownOld & (~gamepadDown)`. -/
def keysUp (d : PlatformDriver) : Nat :=
  d.gamepadDownOld &&& (ULONG_MASK ^^^ d.gamepadDown)

/-- `PlatformDriver::keysHeld`: `gamepadDown`. -/
def keysHeld (d : PlatformDriver) : Nat :=
  d.gamepadDown

/-- `PlatformDriver::isAnyKeyDown`: `gamepadDown > 0`. -/
def isAnyKeyDown (d : PlatformDriver) : Bool :=
  decide (0 < d.gamepadDown)

/-- `PlatformDriver::haveKeyStatesChanged`: `gamepadDown != gamepadDownOld`. -/
def haveKeyStatesChanged (d : PlatformDriver) : Bool :=
  decide (d.gamepadDown ≠ d.gamepadDownOld)

/-! ## Actions (`actions.hpp`) and `Application::handleAction`

`struct Action` carries a key mask, hint text, availability, the hidden flag
and a listener.  The listener is a side-effecting `() -> bool` closure; its
return value is modelled by the field `result`, and the fact that the
listener was invoked is recorded in the trace of fired entries.

`Application::handleAction(button)` walks from the current focus up through
the parents (`hintParent = hintParent->getParent()`); the chain is modelled
as a list of per-node action lists, focus node first.  Positions are pairs
`(node index on the chain, action index within the node)`; the focus node
has node index 0. -/

structure Action where
  key : Nat
  hintText : String
  available : Bool
  hidden : Bool
  /-- Value returned by `actionListener()` when the listener is invoked. -/
  result : Bool
deriving DecidableEq, Repr

/-- Strict order on chain positions: earlier means closer to the current
focus (smaller node index), or same node and earlier in the action list. -/
def posLt (p q : Nat × Nat) : Prop :=
  p.1 < q.1 ∨ (p.1 = q.1 ∧ p.2 < q.2)

instance (p q : Nat × Nat) : Decidable (posLt p q) :=
  inferInstanceAs (Decidable (p.1 < q.1 ∨ (p.1 = q.1 ∧ p.2 < q.2)))

/-- Inner loop of `Application::handleAction` over one node's action list
(`for (auto& action : hintParent->getActions())`).  `i` is the node index on
the chain, `j` the index of the first action of the remaining list,
`consumed` the set of already consumed keys.  Returns the final consumed set
and the trace of invoked listeners (position and action), in invocation
order. -/
def nodeDispatch (button : Nat) (i : Nat) :
    Nat → List Action → List Nat → List Nat × List ((Nat × Nat) × Action)
  | _, [], consumed => (consumed, [])
  | j, a :: rest, consumed =>
    if a.key &&& button = 0 then
      nodeDispatch button i (j + 1) rest consumed
    else if a.key ∈ consumed then
      nodeDispatch button i (j + 1) rest consumed
    else if a.available then
      let consumed' := if a.result then a.key :: consumed else consumed
      let r := nodeDispatch button i (j + 1) rest consumed'
      (r.1, ((i, j), a) :: r.2)
    else
      nodeDispatch button i (j + 1) rest consumed

/-- Outer loop of `Application::handleAction` over the focus-to-root chain
(`while (hintParent != nullptr) ... hintParent = hintParent->getParent()`).
`i` is the node index of the first node of the remaining chain. -/
def chainDispatch (button : Nat) :
    Nat → List (List Action) → List Nat → List Nat × List ((Nat × Nat) × Action)
  | _, [], consumed => (consumed, [])
  | i, node :: rest, consumed =>
    let r1 := nodeDispatch button i 0 node consumed
    let r2 := chainDispatch button (i + 1) rest r1.1
    (r2.1, r1.2 ++ r2.2)

/-- `Application::handleAction`: returns `!consumedKeys.empty()` after the
walk from the focus node (chain head) to the root. -/
def handleAction (button : Nat) (chain : List (List Action)) : Bool :=
  !(chainDispatch button 0 chain []).1.isEmpty

/-- Action registered on the chain at node `n`, index `m`. -/
def entryAt (chain : List (List Action)) (n m : Nat) : Option Action :=
  (chain.get? n).bind fun node => node.get? m

/-- Concrete available action (key `KEY_A`, listener returns `true`)
registered on the focus node of the sample chain. -/
def sampleFocusAction : Action :=
  { key := 1, hintText := "focus", available := true, hidden := false, result := true }

/-- Concrete available action on the same key registered one level up. -/
def sampleAncestorAction : Action :=
  { key := 1, hintText := "ancestor", available := true, hidden := false, result := true }

/-- Sample focus-to-root chain: one action on the focus node and one action
bound to the same key on its parent. -/
def sampleChain : List (List Action) := [[sampleFocusAction], [sampleAncestorAction]]

/-! ## Frame-rate cap (`Application::setMaximumFPS` and the end-of-frame
sleep in `Application::mainLoop`) -/

/-- `Application::setMaximumFPS`: the stored `frameTime` in milliseconds,
`0` disables the cap, otherwise `1000 / fps`. -/
def setMaximumFPS (fps : Nat) : ℚ :=
  if fps = 0 then 0 else 1000 / (fps : ℚ)

/-- The per-frame budget in microseconds: `(retro_time_t)(frameTime * 1000)`
(truncating cast of a nonnegative float, i.e. the floor). -/
def frameTimeLimitUsec (frameTime : ℚ) : Int :=
  ⌊frameTime * 1000⌋

/-- Microseconds slept at the end of one `mainLoop` iteration whose measured
work cost `elapsedUsec` microseconds: sleep only when `frameTime > 0` and
the budget strictly exceeds the measured cost. -/
def mainLoopSleepUsec (frameTime : ℚ) (elapsedUsec : Int) : Int :=
  if 0 < frameTime then
    if elapsedUsec < frameTimeLimitUsec frameTime then
      frameTimeLimitUsec frameTime - elapsedUsec
    else 0
  else 0

/-! ## View stack, focus stacks and transitions (`Application` statics)

The mutable statics of `Application` touched by `pushView`, `popView`,
`navigate`, `onGamepadButtonPressed`, `blockInputs`/`unblockInputs` and
`giveFocus` form the state.  Views are referenced by opaque identifiers.
Show/hide animations do not complete synchronously: starting one registers a
pending completion (first-order data interpreted by `runPending`); a frame
of the animation engine would pop and run them, so "no intervening frame"
means no pending completion is run. -/

/-- Kind of a stack transition animation (`enum ViewAnimation` of the view
layer, not under the analysed sources).  Modelled from the spec: the kinds
are the cross-fade (`FADE`) and the slide variants; the core only tests
equality with `FADE` (`wait`). -/
inductive ViewAnimation
  | fade
  | slideLeft
  | slideRight
deriving DecidableEq, Repr

/-- Focus navigation direction (`enum FocusDirection`). -/
inductive FocusDirection
  | up
  | down
  | left
  | right
deriving DecidableEq, Repr

/-- Opaque identifier of a `View*`. -/
abbrev ViewId := Nat

/-- Observable side effects of the stack-transition and navigation code:
calls made into the view layer, the caller's callback, the input unblock,
and invoked action listeners. -/
inductive Event
  | clearForceTranslucent (v : ViewId)
  | removeFromStack (v : ViewId)
  | destroy (v : ViewId)
  | willAppear (v : ViewId)
  | playShow (v : ViewId)
  | invokeCallback
  | unblockedInputs
  | shake (v : ViewId) (dir : FocusDirection)
  | actionInvoked (node idx : Nat) (a : Action)
deriving DecidableEq, Repr

/-- Completion callbacks handed to `View::show` / `View::hide`, kept as
first-order data so the state can store them; `runPending` interprets them.
`hideCompletePop` is the lambda of `Application::popView`, `hideCompletePush`
the lambda of `Application::pushView`, `showCallback` a show completion that
invokes the caller's callback, `showUnblock` a show completion that calls
`Application::unblockInputs`. -/
inductive PendingKind
  | hideCompletePop (last : ViewId) (anim : ViewAnimation) (wait : Bool)
  | hideCompletePush (anim : ViewAnimation) (wait : Bool)
  | showCallback
  | showUnblock
deriving DecidableEq, Repr

/-- Immutable view-tree environment.  Modelled from the spec: the `View`
class is an external collaborator (not under the analysed sources); the core
consumes `getDefaultFocus`, `isTranslucent` (intrinsic part), `getParent` /
`hasParent`, `getNextFocus(direction, parentUserData)` (the per-parent
layout data is identified with the child it belongs to) and `getActions`.
`depth` with `parent_depth` expresses that parent links form a tree (walking
up terminates), which the C++ code assumes implicitly. -/
structure Env where
  defaultFocus : ViewId → Option ViewId
  translucent : ViewId → Bool
  parent : ViewId → Option ViewId
  nextFocus : ViewId → FocusDirection → ViewId → Option ViewId
  actions : ViewId → List Action
  depth : ViewId → Nat
  parent_depth : ∀ {v p : ViewId}, parent v = some p → depth p < depth v

/-- Mutable `Application` statics: the view stack, the parallel
focus-restoration stack (entries are the saved `Application::currentFocus`,
which may be null), the current focus, the focus recorded by the repeat
filter, the input-block counter (a C++ `int`), the per-view
force-translucent and hidden flags (view-owned, modelled from the spec),
and the registered animation completions. -/
structure AppState where
  viewStack : List ViewId
  focusStack : List (Option ViewId)
  currentFocus : Option ViewId
  repetitionOldFocus : Option ViewId
  blockInputsTokens : Int
  forceTranslucent : ViewId → Bool
  hiddenFlag : ViewId → Bool
  pending : List PendingKind

/-- `Application::blockInputs`: `blockInputsTokens += 1`. -/
def blockInputs (s : AppState) : AppState :=
  { s with blockInputsTokens := s.blockInputsTokens + 1 }

/-- `Application::unblockInputs`: decrement only while positive. -/
def unblockInputs (s : AppState) : AppState :=
  if 0 < s.blockInputsTokens then
    { s with blockInputsTokens := s.blockInputsTokens - 1 }
  else s

/-- Register an animation completion with the animation engine. -/
def addPending (k : PendingKind) (s : AppState) : AppState :=
  { s with pending := s.pending ++ [k] }

/-- `View::setForceTranslucent` on view `v`. -/
def setForceTranslucent (v : ViewId) (b : Bool) (s : AppState) : AppState :=
  { s with forceTranslucent := fun w => if w = v then b else s.forceTranslucent w }

/-- Hidden flag of view `v`.  Modelled from the spec: `View::show` leaves
the hidden state, `View::hide` enters it. -/
def setHidden (v : ViewId) (b : Bool) (s : AppState) : AppState :=
  { s with hiddenFlag := fun w => if w = v then b else s.hiddenFlag w }

/-- `View::isTranslucent` of view `v`: intrinsically translucent or
currently forced translucent.  Modelled from the spec (`View` is external):
a force-translucent view does not occlude views beneath it. -/
def isTranslucentIn (env : Env) (s : AppState) (v : ViewId) : Bool :=
  env.translucent v || s.forceTranslucent v

/-- `Application::giveFocus`: the new focus is `view->getDefaultFocus()`
when `view` is non-null, else null; on a change the old node's
`onFocusLost`, the new node's `onFocusGained` and the global focus-change
event fire (external notifications, not tracked). -/
def giveFocus (env : Env) (view : Option ViewId) (s : AppState) : AppState :=
  if s.currentFocus ≠ view.bind env.defaultFocus then
    { s with currentFocus := view.bind env.defaultFocus }
  else s

/-- Fade-out block of `Application::pushView`: force the incoming view
translucent, start its show animation right away when not waiting, and start
the previous top's hide animation with the push completion lambda. -/
def pushFadeOut (view last : ViewId) (anim : ViewAnimation) (wait : Bool) (s : AppState) :
    AppState :=
  let sA := setForceTranslucent view true s
  let sB :=
    if wait then sA
    else addPending PendingKind.showUnblock (setHidden view false sA)
  addPending (PendingKind.hideCompletePush anim wait) (setHidden last true sB)

/-- `fadeOut` flag of `Application::pushView`: a previous top view exists
and neither it nor the incoming view is translucent. -/
def pushFadeOutFlag (env : Env) (view : ViewId) (s : AppState) : Bool :=
  match s.viewStack.getLast? with
  | some last => !isTranslucentIn env s last && !isTranslucentIn env s view
  | none => false

/-- The `if (fadeOut)` block of `Application::pushView`, a no-op when the
flag is down. -/
def pushFadeOutStage (env : Env) (view : ViewId) (anim : ViewAnimation) (wait : Bool)
    (s : AppState) : AppState :=
  match s.viewStack.getLast? with
  | some last =>
    if !isTranslucentIn env s last && !isTranslucentIn env s view then
      pushFadeOut view last anim wait s
    else s
  | none => s

/-- `Application::pushView(view, animation)`.  The implicit "Exit" / "FPS"
action registrations mutate the incoming view's own action list (view-owned,
outside this state); `setBoundaries`, `invalidate`, `willAppear` and
`view->alpha = 0` are external view calls with no core state. -/
def pushView (env : Env) (view : ViewId) (anim : ViewAnimation) (s : AppState) : AppState :=
  let s1 := blockInputs s
  let wait : Bool := anim == ViewAnimation.fade
  let s2 := pushFadeOutStage env view anim wait s1
  let s3 :=
    if pushFadeOutFlag env view s1 then s2
    else addPending PendingKind.showUnblock (setHidden view false s2)
  let s4 :=
    if 0 < s3.viewStack.length then
      { s3 with focusStack := s3.focusStack ++ [s3.currentFocus] }
    else s3
  let s5 := giveFocus env (env.defaultFocus view) s4
  { s5 with viewStack := s5.viewStack ++ [view] }

/-- Early-show block of `Application::popView` (non-waiting animation with a
view underneath): start the exposed view's show animation at once, with the
caller's callback attached to its completion. -/
def popShowEarly (wait : Bool) (s : AppState) : AppState :=
  if wait = false ∧ 1 < s.viewStack.length then
    match s.viewStack.dropLast.getLast? with
    | some toShow => addPending PendingKind.showCallback (setHidden toShow false s)
    | none => s
  else s

/-- Focus-restore block of `Application::popView`: give focus to the top of
the focus stack (if any) and pop it. -/
def popRestoreFocus (env : Env) (s : AppState) : AppState :=
  if 0 < s.focusStack.length then
    match s.focusStack.getLast? with
    | some newFocus =>
      let s5 := giveFocus env newFocus s
      { s5 with focusStack := s5.focusStack.dropLast }
    | none => s
  else s

/-- `Application::popView(animation, cb)`: the synchronous part.  The hide
completion lambda is registered as `PendingKind.hideCompletePop`;
`willDisappear` is an external view call. -/
def popView (env : Env) (anim : ViewAnimation) (s : AppState) : AppState :=
  if s.viewStack.length ≤ 1 then s
  else
    let s1 := blockInputs s
    match s1.viewStack.getLast? with
    | none => s1
    | some last =>
      let s2 := setForceTranslucent last true s1
      let wait : Bool := anim == ViewAnimation.fade
      let s3 := addPending (PendingKind.hideCompletePop last anim wait) (setHidden last true s2)
      popRestoreFocus env (popShowEarly wait s3)

/-- Hide-completion lambda of `Application::popView`, run when the popped
view's hide animation finishes: clear force-translucent, pop and destroy the
stack top; then, if a view remains and the pop waits (cross-fade), either
start the exposed view's show animation with the caller's callback attached
to its completion (when it is hidden) or invoke the callback directly (when
it is already shown); finally unblock inputs. -/
def runPopHide (last : ViewId) (anim : ViewAnimation) (wait : Bool) (s : AppState) :
    AppState × List Event :=
  let s1 := setForceTranslucent last false s
  let s2 := { s1 with viewStack := s1.viewStack.dropLast }
  let evs := [Event.clearForceTranslucent last, Event.removeFromStack last, Event.destroy last]
  if 0 < s2.viewStack.length ∧ wait = true then
    match s2.viewStack.getLast? with
    | some newLast =>
      if s2.hiddenFlag newLast then
        let s3 := addPending PendingKind.showCallback (setHidden newLast false s2)
        (unblockInputs s3,
          evs ++ [Event.willAppear newLast, Event.playShow newLast, Event.unblockedInputs])
      else
        (unblockInputs s2, evs ++ [Event.invokeCallback, Event.unblockedInputs])
    | none => (unblockInputs s2, evs ++ [Event.unblockedInputs])
  else (unblockInputs s2, evs ++ [Event.unblockedInputs])

/-- Hide-completion lambda of `Application::pushView` (fade-out path): clear
the incoming top view's force-translucent flag and, when waiting, start its
show animation whose completion unblocks inputs. -/
def runPushHide (wait : Bool) (s : AppState) : AppState × List Event :=
  match s.viewStack.getLast? with
  | none => (s, [])
  | some newLast =>
    let s1 := setForceTranslucent newLast false s
    if wait then
      (addPending PendingKind.showUnblock (setHidden newLast false s1),
        [Event.clearForceTranslucent newLast, Event.playShow newLast])
    else (s1, [Event.clearForceTranslucent newLast])

/-- Interpreter for registered animation completions. -/
def runPending : PendingKind → AppState → AppState × List Event
  | PendingKind.hideCompletePop last anim wait, s => runPopHide last anim wait s
  | PendingKind.hideCompletePush _ wait, s => runPushHide wait s
  | PendingKind.showCallback, s => (s, [Event.invokeCallback])
  | PendingKind.showUnblock, s => (unblockInputs s, [Event.unblockedInputs])

/-- Upward walk of `Application::navigate`: ask the walker's parent for the
next focus in `direction` given the walker; stop on a candidate, stop
empty-handed when the walker's parent is the root (the walker's grandparent
is absent), else climb one level.  (Callers guarantee a parent exists; a
parentless walker yields no candidate.) -/
def navWalk (env : Env) (dir : FocusDirection) (cf : ViewId) : Option ViewId :=
  match h : env.parent cf with
  | none => none
  | some p =>
    match env.nextFocus p dir cf with
    | some nf => some nf
    | none =>
      match env.parent p with
      | none => none
      | some _ => navWalk env dir p
  termination_by env.depth cf
  decreasing_by exact env.parent_depth h

/-- `Application::navigate(direction)`: no-op without a focus or when the
focus has no parent; on an exhausted walk the current focus plays the
directional shake cue; otherwise the found node receives focus. -/
def navigate (env : Env) (dir : FocusDirection) (s : AppState) : AppState × List Event :=
  match s.currentFocus with
  | none => (s, [])
  | some cf =>
    match env.parent cf with
    | none => (s, [])
    | some _ =>
      match navWalk env dir cf with
      | none => (s, [Event.shake cf dir])
      | some nf => (giveFocus env (some nf) s, [])

/-- Focus-to-root chain of action lists starting at view `v`
(`hintParent = currentFocus; ...; hintParent = hintParent->getParent()`). -/
def viewChainFrom (env : Env) (v : ViewId) : List (List Action) :=
  env.actions v ::
    (match h : env.parent v with
     | none => []
     | some p => viewChainFrom env p)
  termination_by env.depth v
  decreasing_by exact env.parent_depth h

/-- Focus-to-root chain of the (possibly absent) current focus. -/
def viewChain (env : Env) : Option ViewId → List (List Action)
  | none => []
  | some v => viewChainFrom env v

/-- `Application::onGamepadButtonPressed(button, repeating)`: suppressed
while inputs are blocked, and for a repeat whose focus equals the focus
recorded at the last non-suppressed dispatch; otherwise record the focus,
dispatch actions, and fall back to d-pad navigation only when no key was
consumed. -/
def onGamepadButtonPressed (env : Env) (button : Nat) (repeating : Bool) (s : AppState) :
    AppState × List Event :=
  if s.blockInputsTokens ≠ 0 then (s, [])
  else if repeating = true ∧ s.repetitionOldFocus = s.currentFocus then (s, [])
  else
    let s1 := { s with repetitionOldFocus := s.currentFocus }
    let r := chainDispatch button 0 (viewChain env s1.currentFocus) []
    let evs := r.2.map fun e => Event.actionInvoked e.1.1 e.1.2 e.2
    if r.1.isEmpty = false then (s1, evs)
    else if button &&& KEY_DDOWN ≠ 0 then
      let n := navigate env FocusDirection.down s1
      (n.1, evs ++ n.2)
    else if button &&& KEY_DUP ≠ 0 then
      let n := navigate env FocusDirection.up s1
      (n.1, evs ++ n.2)
    else if button &&& KEY_DLEFT ≠ 0 then
      let n := navigate env FocusDirection.left s1
      (n.1, evs ++ n.2)
    else if button &&& KEY_DRIGHT ≠ 0 then
      let n := navigate env FocusDirection.right s1
      (n.1, evs ++ n.2)
    else (s1, evs)

/-- One call to `Application::blockInputs` or `Application::unblockInputs`. -/
inductive InputOp
  | block
  | unblock
deriving DecidableEq, Repr

def applyInputOp (s : AppState) : InputOp → AppState
  | InputOp.block => blockInputs s
  | InputOp.unblock => unblockInputs s

/-- Effect of a sequence of block/unblock calls. -/
def runInputOps (ops : List InputOp) (s : AppState) : AppState :=
  ops.foldl applyInputOp s

def blockCount (ops : List InputOp) : Nat := ops.count InputOp.block

def unblockCount (ops : List InputOp) : Nat := ops.count InputOp.unblock

/-- Concrete application state with the given stacks and focus, all flags
clear, counter zero, nothing pending. -/
def mkState (vs : List ViewId) (fs : List (Option ViewId)) (cf : Option ViewId) : AppState :=
  { viewStack := vs
    focusStack := fs
    currentFocus := cf
    repetitionOldFocus := none
    blockInputsTokens := 0
    forceTranslucent := fun _ => false
    hiddenFlag := fun _ => false
    pending := [] }

/-- Concrete witness environment: every view designates itself as default
focus, nothing is translucent, view 1 is a child of view 0 (the root), no
directional candidates anywhere, no registered actions. -/
def envW : Env where
  defaultFocus := fun v => some v
  translucent := fun _ => false
  parent := fun v => if v = 1 then some 0 else none
  nextFocus := fun _ _ _ => none
  actions := fun _ => []
  depth := fun v => v
  parent_depth := by
    intro v p h
    by_cases hv : v = 1
    · subst hv
      have hp : p = 0 := by simpa using h.symm
      subst hp
      exact Nat.zero_lt_one
    · simp [hv] at h

/-! ### Invariants of the action-dispatch walk -/

theorem nodeDispatch_consumed_mono (button i : Nat) (acts : List Action) :
    ∀ (j : Nat) (consumed : List Nat) (k : Nat), k ∈ consumed →
      k ∈ (nodeDispatch button i j acts consumed).1 := by
  induction acts with
  | nil => intro j consumed k hk; simpa [nodeDispatch] using hk
  | cons a rest ih =>
    intro j consumed k hk
    simp only [nodeDispatch]
    split_ifs with h1 h2 h3 h4
    · exact ih _ _ _ hk
    · exact ih _ _ _ hk
    · exact ih _ _ _ (List.mem_cons_of_mem _ hk)
    · exact ih _ _ _ hk
    · exact ih _ _ _ hk

theorem nodeDispatch_consumed_origin (button i : Nat) (acts : List Action) :
    ∀ (j : Nat) (consumed : List Nat) (k : Nat),
      k ∈ (nodeDispatch button i j acts consumed).1 →
      k ∈ consumed ∨ ∃ a ∈ acts, a.key = k := by
  induction acts with
  | nil =>
    intro j consumed k hk
    simp only [nodeDispatch] at hk
    exact Or.inl hk
  | cons a rest ih =>
    intro j consumed k hk
    simp only [nodeDispatch] at hk
    split_ifs at hk with h1 h2 h3 h4
    · rcases ih _ _ _ hk with h | ⟨b, hb, hbk⟩
      · exact Or.inl h
      · exact Or.inr ⟨b, List.mem_cons_of_mem _ hb, hbk⟩
    · rcases ih _ _ _ hk with h | ⟨b, hb, hbk⟩
      · exact Or.inl h
      · exact Or.inr ⟨b, List.mem_cons_of_mem _ hb, hbk⟩
    · rcases ih _ _ _ hk with h | ⟨b, hb, hbk⟩
      · rcases List.mem_cons.mp h with h | h
        · exact Or.inr ⟨a, List.mem_cons_self a rest, h.symm⟩
        · exact Or.inl h
      · exact Or.inr ⟨b, List.mem_cons_of_mem _ hb, hbk⟩
    · rcases ih _ _ _ hk with h | ⟨b, hb, hbk⟩
      · exact Or.inl h
      · exact Or.inr ⟨b, List.mem_cons_of_mem _ hb, hbk⟩
    · rcases ih _ _ _ hk with h | ⟨b, hb, hbk⟩
      · exact Or.inl h
      · exact Or.inr ⟨b, List.mem_cons_of_mem _ hb, hbk⟩

theorem nodeDispatch_skip (button i : Nat) (acts : List Action) :
    ∀ (j : Nat) (consumed : List Nat) (k : Nat), k ∈ consumed →
      ∀ e ∈ (nodeDispatch button i j acts consumed).2, e.2.key ≠ k := by
  induction acts with
  | nil => intro j consumed k _ e he; simp [nodeDispatch] at he
  | cons a rest ih =>
    intro j consumed k hk e he
    simp only [nodeDispatch] at he
    split_ifs at he with h1 h2 h3 h4
    · exact ih _ _ _ hk e he
    · exact ih _ _ _ hk e he
    · rcases List.mem_cons.mp he with h | h
      · subst h
        intro hek
        exact h2 (hek ▸ hk)
      · exact ih _ _ _ (List.mem_cons_of_mem _ hk) e h
    · rcases List.mem_cons.mp he with h | h
      · subst h
        intro hek
        exact h2 (hek ▸ hk)
      · exact ih _ _ _ hk e h
    · exact ih _ _ _ hk e he

theorem nodeDispatch_fired_consumed (button i : Nat) (acts : List Action) :
    ∀ (j : Nat) (consumed : List Nat) (e : (Nat × Nat) × Action),
      e ∈ (nodeDispatch button i j acts consumed).2 → e.2.result = true →
      e.2.key ∈ (nodeDispatch button i j acts consumed).1 := by
  induction acts with
  | nil => intro j consumed e he; simp [nodeDispatch] at he
  | cons a rest ih =>
    intro j consumed e he hres
    simp only [nodeDispatch] at he ⊢
    split_ifs at he ⊢ with h1 h2 h3 h4
    · exact ih _ _ _ he hres
    · exact ih _ _ _ he hres
    · rcases List.mem_cons.mp he with h | h
      · subst h
        exact nodeDispatch_consumed_mono button i rest _ _ _
          (List.mem_cons_self _ _)
      · exact ih _ _ _ h hres
    · rcases List.mem_cons.mp he with h | h
      · subst h
        exact absurd hres h4
      · exact ih _ _ _ h hres
    · exact ih _ _ _ he hres

theorem nodeDispatch_fired_pos (button i : Nat) (acts : List Action) :
    ∀ (j : Nat) (consumed : List Nat) (e : (Nat × Nat) × Action),
      e ∈ (nodeDispatch button i j acts consumed).2 →
      e.1.1 = i ∧ j ≤ e.1.2 := by
  induction acts with
  | nil => intro j consumed e he; simp [nodeDispatch] at he
  | cons a rest ih =>
    intro j consumed e he
    simp only [nodeDispatch] at he
    split_ifs at he with h1 h2 h3 h4
    · have := ih _ _ _ he; exact ⟨this.1, Nat.le_of_succ_le this.2⟩
    · have := ih _ _ _ he; exact ⟨this.1, Nat.le_of_succ_le this.2⟩
    · rcases List.mem_cons.mp he with h | h
      · subst h; exact ⟨rfl, Nat.le_refl j⟩
      · have := ih _ _ _ h; exact ⟨this.1, Nat.le_of_succ_le this.2⟩
    · rcases List.mem_cons.mp he with h | h
      · subst h; exact ⟨rfl, Nat.le_refl j⟩
      · have := ih _ _ _ h; exact ⟨this.1, Nat.le_of_succ_le this.2⟩
    · have := ih _ _ _ he; exact ⟨this.1, Nat.le_of_succ_le this.2⟩

theorem nodeDispatch_fired_mem (button i : Nat) (acts : List Action) :
    ∀ (j : Nat) (consumed : List Nat) (e : (Nat × Nat) × Action),
      e ∈ (nodeDispatch button i j acts consumed).2 → e.2 ∈ acts := by
  induction acts with
  | nil => intro j consumed e he; simp [nodeDispatch] at he
  | cons a rest ih =>
    intro j consumed e he
    simp only [nodeDispatch] at he
    split_ifs at he with h1 h2 h3 h4
    · exact List.mem_cons_of_mem _ (ih _ _ _ he)
    · exact List.mem_cons_of_mem _ (ih _ _ _ he)
    · rcases List.mem_cons.mp he with h | h
      · subst h; exact List.mem_cons_self a rest
      · exact List.mem_cons_of_mem _ (ih _ _ _ h)
    · rcases List.mem_cons.mp he with h | h
      · subst h; exact List.mem_cons_self a rest
      · exact List.mem_cons_of_mem _ (ih _ _ _ h)
    · exact List.mem_cons_of_mem _ (ih _ _ _ he)

/-- Within one node, once a listener fires and returns `true`, no later
action bound to the same key fires. -/
theorem nodeDispatch_short_circuit (button i : Nat) (acts : List Action) :
    ∀ (j : Nat) (consumed : List Nat) (e f : (Nat × Nat) × Action),
      e ∈ (nodeDispatch button i j acts consumed).2 →
      f ∈ (nodeDispatch button i j acts consumed).2 →
      e.1.2 < f.1.2 → e.2.result = true → f.2.key ≠ e.2.key := by
  induction acts with
  | nil => intro j consumed e f he; simp [nodeDispatch] at he
  | cons a rest ih =>
    intro j consumed e f he hf hlt hres
    simp only [nodeDispatch] at he hf
    split_ifs at he hf with h1 h2 h3 h4
    · exact ih _ _ _ _ he hf hlt hres
    · exact ih _ _ _ _ he hf hlt hres
    · rcases List.mem_cons.mp he with h | h
      · subst h
        rcases List.mem_cons.mp hf with h' | h'
        · subst h'
          exact absurd hlt (Nat.lt_irrefl _)
        · have hres' : a.result = true := hres
          have : f.2.key ≠ a.key := by
            refine nodeDispatch_skip button i rest _ _ a.key ?_ f h'
            simp [hres']
          exact this
      · rcases List.mem_cons.mp hf with h' | h'
        · subst h'
          have hpos := (nodeDispatch_fired_pos button i rest _ _ e h).2
          have hj : e.1.2 < j := by simpa using hlt
          omega
        · exact ih _ _ _ _ h h' hlt hres
    · rcases List.mem_cons.mp he with h | h
      · subst h
        simp at hres
        exact absurd hres h4
      · rcases List.mem_cons.mp hf with h' | h'
        · subst h'
          have hpos := (nodeDispatch_fired_pos button i rest _ _ e h).2
          have hj : e.1.2 < j := by simpa using hlt
          omega
        · exact ih _ _ _ _ h h' hlt hres
    · exact ih _ _ _ _ he hf hlt hres

/-- Within one node, the first action bound to its key that matches the
button, is available and whose key is not yet consumed does fire. -/
theorem nodeDispatch_first_fires (button i : Nat) (acts : List Action) :
    ∀ (m j : Nat) (consumed : List Nat) (a : Action),
      acts.get? m = some a → a.key &&& button ≠ 0 → a.available = true →
      a.key ∉ consumed →
      (∀ m' b, m' < m → acts.get? m' = some b → b.key ≠ a.key) →
      ((i, j + m), a) ∈ (nodeDispatch button i j acts consumed).2 := by
  induction acts with
  | nil => intro m j consumed a hget; simp at hget
  | cons c rest ih =>
    intro m j consumed a hget hmatch havail hnotin hfirst
    match m with
    | 0 =>
      have hac : c = a := by simpa using hget
      subst hac
      have hm' : ¬(c.key &&& button = 0) := hmatch
      simp [nodeDispatch, hm', hnotin, havail]
    | Nat.succ m' =>
      have hck : c.key ≠ a.key := hfirst 0 c (Nat.succ_pos m') rfl
      have hget' : rest.get? m' = some a := by simpa using hget
      have hfirst' : ∀ m'' b, m'' < m' → rest.get? m'' = some b → b.key ≠ a.key := by
        intro m'' b hm hb
        exact hfirst (m'' + 1) b (Nat.succ_lt_succ hm) (by simpa using hb)
      have hjm : j + 1 + m' = j + (m' + 1) := by omega
      simp only [nodeDispatch]
      split_ifs with h1 h2 h3 h4
      · have := ih m' (j + 1) consumed a hget' hmatch havail hnotin hfirst'
        rw [hjm] at this
        exact this
      · have := ih m' (j + 1) consumed a hget' hmatch havail hnotin hfirst'
        rw [hjm] at this
        exact this
      · have hnotin' : a.key ∉ c.key :: consumed := by
          intro hmem
          rcases List.mem_cons.mp hmem with h | h
          · exact hck h.symm
          · exact hnotin h
        have := ih m' (j + 1) _ a hget' hmatch havail hnotin' hfirst'
        rw [hjm] at this
        exact List.mem_cons_of_mem _ this
      · have := ih m' (j + 1) consumed a hget' hmatch havail hnotin hfirst'
        rw [hjm] at this
        exact List.mem_cons_of_mem _ this
      · have := ih m' (j + 1) consumed a hget' hmatch havail hnotin hfirst'
        rw [hjm] at this
        exact this

theorem chainDispatch_cons_fst (button i : Nat) (node : List Action)
    (rest : List (List Action)) (consumed : List Nat) :
    (chainDispatch button i (node :: rest) consumed).1
      = (chainDispatch button (i + 1) rest (nodeDispatch button i 0 node consumed).1).1 := rfl

theorem chainDispatch_cons_snd (button i : Nat) (node : List Action)
    (rest : List (List Action)) (consumed : List Nat) :
    (chainDispatch button i (node :: rest) consumed).2
      = (nodeDispatch button i 0 node consumed).2
        ++ (chainDispatch button (i + 1) rest (nodeDispatch button i 0 node consumed).1).2 := rfl

theorem chainDispatch_consumed_mono (button : Nat) (chain : List (List Action)) :
    ∀ (i : Nat) (consumed : List Nat) (k : Nat), k ∈ consumed →
      k ∈ (chainDispatch button i chain consumed).1 := by
  induction chain with
  | nil => intro i consumed k hk; simpa [chainDispatch] using hk
  | cons node rest ih =>
    intro i consumed k hk
    rw [chainDispatch_cons_fst]
    exact ih _ _ _ (nodeDispatch_consumed_mono button i node 0 consumed k hk)

theorem chainDispatch_skip (button : Nat) (chain : List (List Action)) :
    ∀ (i : Nat) (consumed : List Nat) (k : Nat), k ∈ consumed →
      ∀ e ∈ (chainDispatch button i chain consumed).2, e.2.key ≠ k := by
  induction chain with
  | nil => intro i consumed k _ e he; simp [chainDispatch] at he
  | cons node rest ih =>
    intro i consumed k hk e he
    rw [chainDispatch_cons_snd] at he
    rcases List.mem_append.mp he with h | h
    · exact nodeDispatch_skip button i node 0 consumed k hk e h
    · exact ih _ _ _ (nodeDispatch_consumed_mono button i node 0 consumed k hk) e h

theorem chainDispatch_fired_consumed (button : Nat) (chain : List (List Action)) :
    ∀ (i : Nat) (consumed : List Nat) (e : (Nat × Nat) × Action),
      e ∈ (chainDispatch button i chain consumed).2 → e.2.result = true →
      e.2.key ∈ (chainDispatch button i chain consumed).1 := by
  induction chain with
  | nil => intro i consumed e he; simp [chainDispatch] at he
  | cons node rest ih =>
    intro i consumed e he hres
    rw [chainDispatch_cons_snd] at he
    rw [chainDispatch_cons_fst]
    rcases List.mem_append.mp he with h | h
    · exact chainDispatch_consumed_mono button rest _ _ _
        (nodeDispatch_fired_consumed button i node 0 consumed e h hres)
    · exact ih _ _ _ h hres

theorem chainDispatch_fired_pos (button : Nat) (chain : List (List Action)) :
    ∀ (i : Nat) (consumed : List Nat) (e : (Nat × Nat) × Action),
      e ∈ (chainDispatch button i chain consumed).2 → i ≤ e.1.1 := by
  induction chain with
  | nil => intro i consumed e he; simp [chainDispatch] at he
  | cons node rest ih =>
    intro i consumed e he
    rw [chainDispatch_cons_snd] at he
    rcases List.mem_append.mp he with h | h
    · exact Nat.le_of_eq (nodeDispatch_fired_pos button i node 0 consumed e h).1.symm
    · exact Nat.le_of_succ_le (ih _ _ _ h)

/-- Across the whole walk, once a listener fires and returns `true`, no
listener of an action bound to the same key fires at any later position
(same node or any ancestor). -/
theorem chainDispatch_short_circuit (button : Nat) (chain : List (List Action)) :
    ∀ (i : Nat) (consumed : List Nat) (e f : (Nat × Nat) × Action),
      e ∈ (chainDispatch button i chain consumed).2 →
      f ∈ (chainDispatch button i chain consumed).2 →
      posLt e.1 f.1 → e.2.result = true → f.2.key ≠ e.2.key := by
  induction chain with
  | nil => intro i consumed e f he; simp [chainDispatch] at he
  | cons node rest ih =>
    intro i consumed e f he hf hlt hres
    rw [chainDispatch_cons_snd] at he hf
    rcases List.mem_append.mp he with h | h <;>
      rcases List.mem_append.mp hf with h' | h'
    · have hei := (nodeDispatch_fired_pos button i node 0 consumed e h).1
      have hfi := (nodeDispatch_fired_pos button i node 0 consumed f h').1
      rcases hlt with hfst | ⟨_, hsnd⟩
      · rw [hei, hfi] at hfst
        exact absurd hfst (Nat.lt_irrefl i)
      · exact nodeDispatch_short_circuit button i node 0 consumed e f h h' hsnd hres
    · exact chainDispatch_skip button rest _ _ _
        (nodeDispatch_fired_consumed button i node 0 consumed e h hres) f h'
    · have hei := chainDispatch_fired_pos button rest _ _ e h
      have hfi := (nodeDispatch_fired_pos button i node 0 consumed f h').1
      rcases hlt with hfst | ⟨heq, _⟩
      · rw [hfi] at hfst
        omega
      · rw [hfi] at heq
        omega
    · exact ih _ _ _ _ h h' hlt hres

/-- The first action on the chain bound to its key fires whenever it matches
the button, is available, and no action bound to the same key sits at any
strictly earlier position of the walk. -/
theorem chainDispatch_first_fires (button : Nat) (chain : List (List Action)) :
    ∀ (i : Nat) (consumed : List Nat) (n m : Nat) (a : Action),
      entryAt chain n m = some a → a.key &&& button ≠ 0 → a.available = true →
      a.key ∉ consumed →
      (∀ q r b, posLt (q, r) (n, m) → entryAt chain q r = some b → b.key ≠ a.key) →
      ((i + n, m), a) ∈ (chainDispatch button i chain consumed).2 := by
  induction chain with
  | nil => intro i consumed n m a hget; simp [entryAt] at hget
  | cons node rest ih =>
    intro i consumed n m a hget hmatch havail hnotin hfirst
    match n with
    | 0 =>
      have hget0 : node.get? m = some a := by simpa [entryAt] using hget
      have hfirst0 : ∀ m' b, m' < m → node.get? m' = some b → b.key ≠ a.key := by
        intro m' b hm hb
        exact hfirst 0 m' b (Or.inr ⟨rfl, hm⟩) (by simpa [entryAt] using hb)
      have := nodeDispatch_first_fires button i node m 0 consumed a hget0 hmatch havail
        hnotin hfirst0
      rw [chainDispatch_cons_snd]
      refine List.mem_append.mpr (Or.inl ?_)
      simpa using this
    | Nat.succ n' =>
      have hget' : entryAt rest n' m = some a := by simpa [entryAt] using hget
      have hnotin' : a.key ∉ (nodeDispatch button i 0 node consumed).1 := by
        intro hmem
        rcases nodeDispatch_consumed_origin button i node 0 consumed a.key hmem with
          h | ⟨b, hb, hbk⟩
        · exact hnotin h
        · rcases List.mem_iff_get?.mp hb with ⟨m', hm'⟩
          exact hfirst 0 m' b (Or.inl (Nat.succ_pos n'))
            (by simpa [entryAt] using hm') hbk
      have hfirst' : ∀ q r b, posLt (q, r) (n', m) → entryAt rest q r = some b →
          b.key ≠ a.key := by
        intro q r b hq hb
        refine hfirst (q + 1) r b ?_ (by simpa [entryAt] using hb)
        rcases hq with h | ⟨h, h'⟩
        · exact Or.inl (Nat.succ_lt_succ h)
        · exact Or.inr ⟨by omega, h'⟩
      have := ih (i + 1) _ n' m a hget' hmatch havail hnotin' hfirst'
      rw [chainDispatch_cons_snd]
      refine List.mem_append.mpr (Or.inr ?_)
      have hin : i + 1 + n' = i + (n' + 1) := by omega
      rw [hin] at this
      exact this

theorem nodeDispatch_pairwise (button i : Nat) (acts : List Action) :
    ∀ (j : Nat) (consumed : List Nat),
      List.Pairwise (fun e f => e.1.2 < f.1.2)
        (nodeDispatch button i j acts consumed).2 := by
  induction acts with
  | nil => intro j consumed; simp [nodeDispatch]
  | cons a rest ih =>
    intro j consumed
    simp only [nodeDispatch]
    split_ifs with h1 h2 h3 h4
    · exact ih _ _
    · exact ih _ _
    · refine List.Pairwise.cons ?_ (ih _ _)
      intro f hf
      have := (nodeDispatch_fired_pos button i rest _ _ f hf).2
      simpa using Nat.lt_of_succ_le this
    · refine List.Pairwise.cons ?_ (ih _ _)
      intro f hf
      have := (nodeDispatch_fired_pos button i rest _ _ f hf).2
      simpa using Nat.lt_of_succ_le this
    · exact ih _ _

/-- The trace of invoked listeners is ordered focus-first: positions strictly
increase along the walk (first by node depth, the focus node first, then by
action index inside one node). -/
theorem chainDispatch_pairwise (button : Nat) (chain : List (List Action)) :
    ∀ (i : Nat) (consumed : List Nat),
      List.Pairwise (fun e f => posLt e.1 f.1)
        (chainDispatch button i chain consumed).2 := by
  induction chain with
  | nil => intro i consumed; simp [chainDispatch]
  | cons node rest ih =>
    intro i consumed
    rw [chainDispatch_cons_snd]
    refine List.pairwise_append.mpr ⟨?_, ih _ _, ?_⟩
    · refine List.Pairwise.imp_of_mem ?_ (nodeDispatch_pairwise button i node 0 consumed)
      intro e f he hf hlt
      exact Or.inr ⟨by
        rw [(nodeDispatch_fired_pos button i node 0 consumed e he).1,
          (nodeDispatch_fired_pos button i node 0 consumed f hf).1], hlt⟩
    · intro e he f hf
      have hei := (nodeDispatch_fired_pos button i node 0 consumed e he).1
      have hfi := chainDispatch_fired_pos button rest _ _ f hf
      exact Or.inl (by omega)

/-- C1: in a `handleAction` dispatch, when actions bound to the same key sit
at several positions of the focus-to-root chain, the one closest to the
focus (no same-key action strictly earlier in the walk) fires; since its
listener returns `true` its key joins the consumed set, and every action
bound to that key at any later position of the walk (same node or any
ancestor) is skipped for the remainder of the dispatch. -/
theorem handleAction_consumed_key_short_circuit
    (button : Nat) (chain : List (List Action)) (p : Nat × Nat) (a : Action)
    (ha : entryAt chain p.1 p.2 = some a)
    (hmatch : a.key &&& button ≠ 0) (havail : a.available = true)
    (hres : a.result = true)
    (hfirst : ∀ q b, posLt q p → entryAt chain q.1 q.2 = some b → b.key ≠ a.key) :
    (p, a) ∈ (chainDispatch button 0 chain []).2
    ∧ a.key ∈ (chainDispatch button 0 chain []).1
    ∧ handleAction button chain = true
    ∧ ∀ q b, posLt p q → entryAt chain q.1 q.2 = some b → b.key = a.key →
        (q, b) ∉ (chainDispatch button 0 chain []).2 := by
  have hp := chainDispatch_first_fires button chain 0 [] p.1 p.2 a ha hmatch havail
    (List.not_mem_nil _) (fun q r b hq hb => hfirst (q, r) b hq hb)
  have hp' : (p, a) ∈ (chainDispatch button 0 chain []).2 := by simpa using hp
  have hkey := chainDispatch_fired_consumed button chain 0 [] (p, a) hp' hres
  refine ⟨hp', hkey, ?_, ?_⟩
  · have hne := List.ne_nil_of_mem hkey
    simp only [handleAction, Bool.not_eq_true']
    simpa [List.isEmpty_iff] using hne
  · intro q b hq hb hbk hqin
    exact chainDispatch_short_circuit button chain 0 [] (p, a) (q, b) hp' hqin hq hres hbk

theorem handleAction_consumed_key_short_circuit_witness :
    ((0, 0), sampleFocusAction) ∈ (chainDispatch KEY_A 0 sampleChain []).2
    ∧ sampleFocusAction.key ∈ (chainDispatch KEY_A 0 sampleChain []).1
    ∧ handleAction KEY_A sampleChain = true
    ∧ ((1, 0), sampleAncestorAction) ∉ (chainDispatch KEY_A 0 sampleChain []).2 := by
  have h := handleAction_consumed_key_short_circuit KEY_A sampleChain (0, 0)
    sampleFocusAction (by decide) (by decide) (by decide) (by decide)
    (by
      intro q b hq _
      rcases hq with h | ⟨_, h⟩ <;> exact absurd h (Nat.not_lt_zero _))
  exact ⟨h.1, h.2.1, h.2.2.1,
    h.2.2.2 (1, 0) sampleAncestorAction (by decide) (by decide) (by decide)⟩

/-- C8 counterexample: on a chain with the same available, consuming action
bound to one key on the focus node and on its ancestor, the dispatch invokes
and consumes the focus node's action and never considers the ancestor's, so
consumption order is not ancestor-first. -/
theorem handleAction_ancestor_first_counterexample :
    ((0, 0), sampleFocusAction) ∈ (chainDispatch KEY_A 0 sampleChain []).2
    ∧ ((1, 0), sampleAncestorAction) ∉ (chainDispatch KEY_A 0 sampleChain []).2 := by
  decide

/-- C8 (amended): consumption order is focus-first, not ancestor-first: the
trace of invoked listeners is strictly ordered by position along the walk,
the current focus node first, then its ancestors in order. -/
theorem handleAction_consumption_order_focus_first
    (button : Nat) (chain : List (List Action)) :
    List.Pairwise (fun e f => posLt e.1 f.1) (chainDispatch button 0 chain []).2 :=
  chainDispatch_pairwise button chain 0 []

/-- C5: across two consecutive snapshots, `keysDown` is exactly the newly
pressed bits, `keysUp` exactly the newly released bits, `keysHeld` the
current snapshot, and every button bit is in exactly one of the classes
newly-down, still-held, newly-up, neither. -/
theorem keys_edge_partition (d : PlatformDriver) (i : Nat) (hi : i < 64) :
    ((keysDown d).testBit i = true ↔
      (d.gamepadDown.testBit i = true ∧ d.gamepadDownOld.testBit i = false))
    ∧ ((keysUp d).testBit i = true ↔
      (d.gamepadDownOld.testBit i = true ∧ d.gamepadDown.testBit i = false))
    ∧ ((keysHeld d).testBit i = d.gamepadDown.testBit i)
    ∧ (((keysDown d).testBit i = true
          ∧ ¬((keysHeld d).testBit i = true ∧ d.gamepadDownOld.testBit i = true)
          ∧ ¬(keysUp d).testBit i = true
          ∧ ¬(d.gamepadDown.testBit i = false ∧ d.gamepadDownOld.testBit i = false))
      ∨ (¬(keysDown d).testBit i = true
          ∧ ((keysHeld d).testBit i = true ∧ d.gamepadDownOld.testBit i = true)
          ∧ ¬(keysUp d).testBit i = true
          ∧ ¬(d.gamepadDown.testBit i = false ∧ d.gamepadDownOld.testBit i = false))
      ∨ (¬(keysDown d).testBit i = true
          ∧ ¬((keysHeld d).testBit i = true ∧ d.gamepadDownOld.testBit i = true)
          ∧ (keysUp d).testBit i = true
          ∧ ¬(d.gamepadDown.testBit i = false ∧ d.gamepadDownOld.testBit i = false))
      ∨ (¬(keysDown d).testBit i = true
          ∧ ¬((keysHeld d).testBit i = true ∧ d.gamepadDownOld.testBit i = true)
          ∧ ¬(keysUp d).testBit i = true
          ∧ (d.gamepadDown.testBit i = false ∧ d.gamepadDownOld.testBit i = false))) := by
  have hmask : ULONG_MASK.testBit i = true := by
    have hdef : ULONG_MASK = 2 ^ 64 - 1 := rfl
    rw [hdef, Nat.testBit_two_pow_sub_one]
    simpa using hi
  cases hdown : d.gamepadDown.testBit i <;> cases hold : d.gamepadDownOld.testBit i <;>
    simp [keysDown, keysUp, keysHeld, Nat.testBit_land, Nat.testBit_xor, hmask, hdown, hold]

theorem keys_edge_partition_witness :
    (keysDown { gamepadDown := 5, gamepadDownOld := 3 }).testBit 1 = true ↔
      ((5 : Nat).testBit 1 = true ∧ (3 : Nat).testBit 1 = false) :=
  (keys_edge_partition { gamepadDown := 5, gamepadDownOld := 3 } 1 (by decide)).1

theorem setMaximumFPS_pos (fps : Nat) (h : fps ≠ 0) : 0 < setMaximumFPS fps := by
  rw [setMaximumFPS, if_neg h]
  have hfq : (0 : ℚ) < (fps : ℚ) := by exact_mod_cast Nat.pos_of_ne_zero h
  exact div_pos (by norm_num) hfq

/-- At 60 frames per second the truncated budget is 16666 microseconds. -/
theorem frameTimeLimit_sixty : frameTimeLimitUsec (setMaximumFPS 60) = 16666 := by
  have h1 : setMaximumFPS 60 * 1000 = 50000 / 3 := by
    rw [setMaximumFPS]
    norm_num
  rw [frameTimeLimitUsec, h1, Int.floor_eq_iff]
  constructor <;> norm_num

/-- C10 counterexample: with `setMaximumFPS 60` a frame whose measured work
is 16666 µs costs less than `1000 / 60` milliseconds, yet the loop does not
sleep at all (the budget is the truncated `(retro_time_t)(frameTime * 1000)
= 16666` µs and the comparison is strict). -/
theorem mainLoop_sleep_boundary_counterexample :
    ((16666 : ℚ) / 1000 < 1000 / 60)
    ∧ mainLoopSleepUsec (setMaximumFPS 60) 16666 = 0 := by
  refine ⟨by norm_num, ?_⟩
  rw [mainLoopSleepUsec, if_pos (setMaximumFPS_pos 60 (by norm_num)), frameTimeLimit_sixty]
  norm_num

/-- C10 (amended): after `setMaximumFPS fps` with `fps > 0`, an iteration
whose measured cost is below the truncated microsecond budget
`(retro_time_t)(frameTime * 1000)` sleeps for exactly the remaining part of
that budget; after `setMaximumFPS 0` the loop never sleeps. -/
theorem mainLoop_sleep_budget (fps : Nat) (hfps : fps ≠ 0) (elapsed : Int)
    (hcost : elapsed < frameTimeLimitUsec (setMaximumFPS fps)) :
    mainLoopSleepUsec (setMaximumFPS fps) elapsed
        = frameTimeLimitUsec (setMaximumFPS fps) - elapsed
    ∧ (∀ e : Int, mainLoopSleepUsec (setMaximumFPS 0) e = 0) := by
  constructor
  · have hpos : 0 < setMaximumFPS fps := setMaximumFPS_pos fps hfps
    simp [mainLoopSleepUsec, hpos, hcost]
  · intro e
    simp [mainLoopSleepUsec, setMaximumFPS]

theorem mainLoop_sleep_budget_witness :
    mainLoopSleepUsec (setMaximumFPS 60) 4000
      = frameTimeLimitUsec (setMaximumFPS 60) - 4000 :=
  (mainLoop_sleep_budget 60 (by decide) 4000
    (lt_of_lt_of_eq (by decide : (4000 : Int) < 16666) frameTimeLimit_sixty.symm)).1

/-! ### Field bookkeeping for the state operations -/

@[simp] theorem blockInputs_viewStack (s : AppState) : (blockInputs s).viewStack = s.viewStack := rfl

@[simp] theorem blockInputs_focusStack (s : AppState) : (blockInputs s).focusStack = s.focusStack := rfl

@[simp] theorem blockInputs_currentFocus (s : AppState) : (blockInputs s).currentFocus = s.currentFocus := rfl

@[simp] theorem blockInputs_repetitionOldFocus (s : AppState) : (blockInputs s).repetitionOldFocus = s.repetitionOldFocus := rfl

@[simp] theorem blockInputs_pending (s : AppState) : (blockInputs s).pending = s.pending := rfl

@[simp] theorem blockInputs_hiddenFlag (s : AppState) : (blockInputs s).hiddenFlag = s.hiddenFlag := rfl

@[simp] theorem blockInputs_tokens (s : AppState) : (blockInputs s).blockInputsTokens = s.blockInputsTokens + 1 := rfl

@[simp] theorem unblockInputs_viewStack (s : AppState) : (unblockInputs s).viewStack = s.viewStack := by
  rw [unblockInputs]; split <;> rfl

@[simp] theorem unblockInputs_focusStack (s : AppState) : (unblockInputs s).focusStack = s.focusStack := by
  rw [unblockInputs]; split <;> rfl

@[simp] theorem unblockInputs_currentFocus (s : AppState) : (unblockInputs s).currentFocus = s.currentFocus := by
  rw [unblockInputs]; split <;> rfl

@[simp] theorem unblockInputs_repetitionOldFocus (s : AppState) : (unblockInputs s).repetitionOldFocus = s.repetitionOldFocus := by
  rw [unblockInputs]; split <;> rfl

@[simp] theorem unblockInputs_pending (s : AppState) : (unblockInputs s).pending = s.pending := by
  rw [unblockInputs]; split <;> rfl

@[simp] theorem unblockInputs_hiddenFlag (s : AppState) : (unblockInputs s).hiddenFlag = s.hiddenFlag := by
  rw [unblockInputs]; split <;> rfl

@[simp] theorem addPending_viewStack (k : PendingKind) (s : AppState) : (addPending k s).viewStack = s.viewStack := rfl

@[simp] theorem addPending_focusStack (k : PendingKind) (s : AppState) : (addPending k s).focusStack = s.focusStack := rfl

@[simp] theorem addPending_currentFocus (k : PendingKind) (s : AppState) : (addPending k s).currentFocus = s.currentFocus := rfl

@[simp] theorem addPending_repetitionOldFocus (k : PendingKind) (s : AppState) : (addPending k s).repetitionOldFocus = s.repetitionOldFocus := rfl

@[simp] theorem addPending_tokens (k : PendingKind) (s : AppState) : (addPending k s).blockInputsTokens = s.blockInputsTokens := rfl

@[simp] theorem addPending_hiddenFlag (k : PendingKind) (s : AppState) : (addPending k s).hiddenFlag = s.hiddenFlag := rfl

@[simp] theorem addPending_pending (k : PendingKind) (s : AppState) : (addPending k s).pending = s.pending ++ [k] := rfl

@[simp] theorem setForceTranslucent_viewStack (v : ViewId) (b : Bool) (s : AppState) : (setForceTranslucent v b s).viewStack = s.viewStack := rfl

@[simp] theorem setForceTranslucent_focusStack (v : ViewId) (b : Bool) (s : AppState) : (setForceTranslucent v b s).focusStack = s.focusStack := rfl

@[simp] theorem setForceTranslucent_currentFocus (v : ViewId) (b : Bool) (s : AppState) : (setForceTranslucent v b s).currentFocus = s.currentFocus := rfl

@[simp] theorem setForceTranslucent_repetitionOldFocus (v : ViewId) (b : Bool) (s : AppState) : (setForceTranslucent v b s).repetitionOldFocus = s.repetitionOldFocus := rfl

@[simp] theorem setForceTranslucent_tokens (v : ViewId) (b : Bool) (s : AppState) : (setForceTranslucent v b s).blockInputsTokens = s.blockInputsTokens := rfl

@[simp] theorem setForceTranslucent_pending (v : ViewId) (b : Bool) (s : AppState) : (setForceTranslucent v b s).pending = s.pending := rfl

@[simp] theorem setForceTranslucent_hiddenFlag (v : ViewId) (b : Bool) (s : AppState) : (setForceTranslucent v b s).hiddenFlag = s.hiddenFlag := rfl

@[simp] theorem setHidden_viewStack (v : ViewId) (b : Bool) (s : AppState) : (setHidden v b s).viewStack = s.viewStack := rfl

@[simp] theorem setHidden_focusStack (v : ViewId) (b : Bool) (s : AppState) : (setHidden v b s).focusStack = s.focusStack := rfl

@[simp] theorem setHidden_currentFocus (v : ViewId) (b : Bool) (s : AppState) : (setHidden v b s).currentFocus = s.currentFocus := rfl

@[simp] theorem setHidden_repetitionOldFocus (v : ViewId) (b : Bool) (s : AppState) : (setHidden v b s).repetitionOldFocus = s.repetitionOldFocus := rfl

@[simp] theorem setHidden_tokens (v : ViewId) (b : Bool) (s : AppState) : (setHidden v b s).blockInputsTokens = s.blockInputsTokens := rfl

@[simp] theorem setHidden_pending (v : ViewId) (b : Bool) (s : AppState) : (setHidden v b s).pending = s.pending := rfl

@[simp] theorem giveFocus_viewStack (env : Env) (o : Option ViewId) (s : AppState) : (giveFocus env o s).viewStack = s.viewStack := by
  rw [giveFocus]; split <;> rfl

@[simp] theorem giveFocus_focusStack (env : Env) (o : Option ViewId) (s : AppState) : (giveFocus env o s).focusStack = s.focusStack := by
  rw [giveFocus]; split <;> rfl

@[simp] theorem giveFocus_repetitionOldFocus (env : Env) (o : Option ViewId) (s : AppState) : (giveFocus env o s).repetitionOldFocus = s.repetitionOldFocus := by
  rw [giveFocus]; split <;> rfl

@[simp] theorem giveFocus_tokens (env : Env) (o : Option ViewId) (s : AppState) : (giveFocus env o s).blockInputsTokens = s.blockInputsTokens := by
  rw [giveFocus]; split <;> rfl

@[simp] theorem giveFocus_pending (env : Env) (o : Option ViewId) (s : AppState) : (giveFocus env o s).pending = s.pending := by
  rw [giveFocus]; split <;> rfl

@[simp] theorem giveFocus_hiddenFlag (env : Env) (o : Option ViewId) (s : AppState) : (giveFocus env o s).hiddenFlag = s.hiddenFlag := by
  rw [giveFocus]; split <;> rfl

@[simp] theorem giveFocus_currentFocus (env : Env) (o : Option ViewId) (s : AppState) : (giveFocus env o s).currentFocus = o.bind env.defaultFocus := by
  rw [giveFocus]
  split
  · rfl
  · rename_i h
    exact not_ne_iff.mp h

@[simp] theorem pushFadeOut_viewStack (view last : ViewId) (anim : ViewAnimation) (wait : Bool) (s : AppState) : (pushFadeOut view last anim wait s).viewStack = s.viewStack := by
  rw [pushFadeOut]; split <;> simp

@[simp] theorem pushFadeOut_focusStack (view last : ViewId) (anim : ViewAnimation) (wait : Bool) (s : AppState) : (pushFadeOut view last anim wait s).focusStack = s.focusStack := by
  rw [pushFadeOut]; split <;> simp

@[simp] theorem pushFadeOut_currentFocus (view last : ViewId) (anim : ViewAnimation) (wait : Bool) (s : AppState) : (pushFadeOut view last anim wait s).currentFocus = s.currentFocus := by
  rw [pushFadeOut]; split <;> simp

@[simp] theorem pushFadeOut_tokens (view last : ViewId) (anim : ViewAnimation) (wait : Bool) (s : AppState) : (pushFadeOut view last anim wait s).blockInputsTokens = s.blockInputsTokens := by
  rw [pushFadeOut]; split <;> simp

@[simp] theorem popShowEarly_viewStack (wait : Bool) (s : AppState) : (popShowEarly wait s).viewStack = s.viewStack := by
  rw [popShowEarly]; split
  · split <;> simp
  · rfl

@[simp] theorem popShowEarly_focusStack (wait : Bool) (s : AppState) : (popShowEarly wait s).focusStack = s.focusStack := by
  rw [popShowEarly]; split
  · split <;> simp
  · rfl

@[simp] theorem popShowEarly_currentFocus (wait : Bool) (s : AppState) : (popShowEarly wait s).currentFocus = s.currentFocus := by
  rw [popShowEarly]; split
  · split <;> simp
  · rfl

@[simp] theorem popShowEarly_tokens (wait : Bool) (s : AppState) : (popShowEarly wait s).blockInputsTokens = s.blockInputsTokens := by
  rw [popShowEarly]; split
  · split <;> simp
  · rfl

theorem popShowEarly_wait (s : AppState) : popShowEarly true s = s := by
  rw [popShowEarly]
  simp

@[simp] theorem popRestoreFocus_viewStack (env : Env) (s : AppState) : (popRestoreFocus env s).viewStack = s.viewStack := by
  rw [popRestoreFocus]; split
  · split <;> simp
  · rfl

@[simp] theorem popRestoreFocus_tokens (env : Env) (s : AppState) : (popRestoreFocus env s).blockInputsTokens = s.blockInputsTokens := by
  rw [popRestoreFocus]; split
  · split <;> simp
  · rfl

@[simp] theorem popRestoreFocus_pending (env : Env) (s : AppState) : (popRestoreFocus env s).pending = s.pending := by
  rw [popRestoreFocus]; split
  · split <;> simp
  · rfl

theorem popRestoreFocus_found (env : Env) (s : AppState) (f0 : Option ViewId)
    (hlast : s.focusStack.getLast? = some f0) :
    (popRestoreFocus env s).currentFocus = f0.bind env.defaultFocus
    ∧ (popRestoreFocus env s).focusStack = s.focusStack.dropLast := by
  have hne : s.focusStack ≠ [] := by
    intro h
    rw [h] at hlast
    simp at hlast
  have hlen : 0 < s.focusStack.length := List.length_pos.mpr hne
  rw [popRestoreFocus, if_pos hlen, hlast]
  simp

/-! ### Structure of `pushView` and `popView` -/

@[simp] theorem pushFadeOutStage_viewStack (env : Env) (v : ViewId) (anim : ViewAnimation) (wait : Bool) (s : AppState) : (pushFadeOutStage env v anim wait s).viewStack = s.viewStack := by
  rw [pushFadeOutStage]; split
  · split_ifs <;> simp
  · rfl

@[simp] theorem pushFadeOutStage_focusStack (env : Env) (v : ViewId) (anim : ViewAnimation) (wait : Bool) (s : AppState) : (pushFadeOutStage env v anim wait s).focusStack = s.focusStack := by
  rw [pushFadeOutStage]; split
  · split_ifs <;> simp
  · rfl

@[simp] theorem pushFadeOutStage_currentFocus (env : Env) (v : ViewId) (anim : ViewAnimation) (wait : Bool) (s : AppState) : (pushFadeOutStage env v anim wait s).currentFocus = s.currentFocus := by
  rw [pushFadeOutStage]; split
  · split_ifs <;> simp
  · rfl

@[simp] theorem pushFadeOutStage_tokens (env : Env) (v : ViewId) (anim : ViewAnimation) (wait : Bool) (s : AppState) : (pushFadeOutStage env v anim wait s).blockInputsTokens = s.blockInputsTokens := by
  rw [pushFadeOutStage]; split
  · split_ifs <;> simp
  · rfl

theorem pushView_viewStack (env : Env) (v : ViewId) (anim : ViewAnimation) (s : AppState) :
    (pushView env v anim s).viewStack = s.viewStack ++ [v] := by
  simp only [pushView]
  split_ifs <;> simp

theorem pushView_focusStack (env : Env) (v : ViewId) (anim : ViewAnimation) (s : AppState)
    (h : s.viewStack ≠ []) :
    (pushView env v anim s).focusStack = s.focusStack ++ [s.currentFocus] := by
  have hlen : 0 < s.viewStack.length := List.length_pos.mpr h
  simp only [pushView]
  split_ifs <;> simp_all

theorem pushView_tokens (env : Env) (v : ViewId) (anim : ViewAnimation) (s : AppState) :
    (pushView env v anim s).blockInputsTokens = s.blockInputsTokens + 1 := by
  simp only [pushView]
  split_ifs <;> simp

theorem popView_unfold (env : Env) (anim : ViewAnimation) (s : AppState) (last : ViewId)
    (hlen : 1 < s.viewStack.length)
    (hlast : s.viewStack.getLast? = some last) :
    popView env anim s =
      popRestoreFocus env (popShowEarly (anim == ViewAnimation.fade)
        (addPending (PendingKind.hideCompletePop last anim (anim == ViewAnimation.fade))
          (setHidden last true (setForceTranslucent last true (blockInputs s))))) := by
  have hne : ¬ s.viewStack.length ≤ 1 := by omega
  have h1 : (blockInputs s).viewStack.getLast? = some last := hlast
  simp only [popView]
  rw [if_neg hne, h1]

theorem popView_focus_restore (env : Env) (anim : ViewAnimation) (s : AppState)
    (last : ViewId) (f0 : Option ViewId)
    (hlen : 1 < s.viewStack.length)
    (hlast : s.viewStack.getLast? = some last)
    (hfs : s.focusStack.getLast? = some f0) :
    (popView env anim s).currentFocus = f0.bind env.defaultFocus
    ∧ (popView env anim s).focusStack = s.focusStack.dropLast := by
  rw [popView_unfold env anim s last hlen hlast]
  have hstk : (popShowEarly (anim == ViewAnimation.fade)
      (addPending (PendingKind.hideCompletePop last anim (anim == ViewAnimation.fade))
        (setHidden last true (setForceTranslucent last true (blockInputs s))))).focusStack
      = s.focusStack := by simp
  have := popRestoreFocus_found env (popShowEarly (anim == ViewAnimation.fade)
      (addPending (PendingKind.hideCompletePop last anim (anim == ViewAnimation.fade))
        (setHidden last true (setForceTranslucent last true (blockInputs s))))) f0
      (by rw [hstk]; exact hfs)
  rw [hstk] at this
  exact this

/-- C4: when the view stack holds exactly one view, `popView` is a no-op:
the stack size, the current focus, the focus stack and the input-block
counter are unchanged. -/
theorem popView_singleton_noop (env : Env) (anim : ViewAnimation) (s : AppState)
    (h : s.viewStack.length = 1) :
    (popView env anim s).viewStack.length = s.viewStack.length
    ∧ (popView env anim s).currentFocus = s.currentFocus
    ∧ (popView env anim s).focusStack = s.focusStack
    ∧ (popView env anim s).blockInputsTokens = s.blockInputsTokens := by
  have hle : s.viewStack.length ≤ 1 := by omega
  simp only [popView]
  rw [if_pos hle]
  exact ⟨rfl, rfl, rfl, rfl⟩

/-- Singleton-stack state used by the no-op pop witness. -/
def s4w : AppState := mkState [3] [] (some 3)

theorem popView_singleton_noop_witness :
    (popView envW ViewAnimation.fade s4w).viewStack.length = s4w.viewStack.length
    ∧ (popView envW ViewAnimation.fade s4w).currentFocus = s4w.currentFocus
    ∧ (popView envW ViewAnimation.fade s4w).focusStack = s4w.focusStack
    ∧ (popView envW ViewAnimation.fade s4w).blockInputsTokens = s4w.blockInputsTokens :=
  popView_singleton_noop envW ViewAnimation.fade s4w (by decide)

/-- Empty-stack state with a focus: the C2 counterexample input. -/
def s2cex : AppState := mkState [] [] (some 5)

/-- C2 counterexample: from a state with an empty view stack (before the
first push) and focus on node 5, `pushView 7` followed immediately by
`popView` leaves focus on node 7 (the pop is a no-op on the singleton
stack), so the focus that held before the push is not restored. -/
theorem pushView_popView_empty_stack_counterexample :
    (popView envW ViewAnimation.fade (pushView envW 7 ViewAnimation.fade s2cex)).currentFocus
      ≠ s2cex.currentFocus := by
  decide

/-- C2 (amended): from every state whose view stack is nonempty and whose
current focus (if any) designates itself as its own default focus, a
`pushView` immediately followed by a `popView` (no intervening frame, i.e.
no animation completion runs) restores the current focus to the node that
held it before the push and leaves the focus stack size unchanged. -/
theorem pushView_popView_focus_roundtrip (env : Env) (v : ViewId)
    (a1 a2 : ViewAnimation) (s : AppState)
    (hne : s.viewStack ≠ [])
    (hself : s.currentFocus.bind env.defaultFocus = s.currentFocus) :
    (popView env a2 (pushView env v a1 s)).currentFocus = s.currentFocus
    ∧ (popView env a2 (pushView env v a1 s)).focusStack.length = s.focusStack.length := by
  have hvs := pushView_viewStack env v a1 s
  have hfs := pushView_focusStack env v a1 s hne
  have hlen : 1 < (pushView env v a1 s).viewStack.length := by
    rw [hvs, List.length_append]
    have := List.length_pos.mpr hne
    simp
    omega
  have hlast : (pushView env v a1 s).viewStack.getLast? = some v := by
    rw [hvs]
    exact List.getLast?_concat _
  have hfs0 : (pushView env v a1 s).focusStack.getLast? = some s.currentFocus := by
    rw [hfs]
    exact List.getLast?_concat _
  obtain ⟨h1, h2⟩ := popView_focus_restore env a2 (pushView env v a1 s) v s.currentFocus
    hlen hlast hfs0
  refine ⟨by rw [h1, hself], ?_⟩
  rw [h2, hfs]
  simp

/-- One-view state with matching focus: the C2 witness input. -/
def s2w : AppState := mkState [0] [] (some 0)

theorem pushView_popView_focus_roundtrip_witness :
    (popView envW ViewAnimation.slideLeft
        (pushView envW 1 ViewAnimation.slideLeft s2w)).currentFocus = s2w.currentFocus
    ∧ (popView envW ViewAnimation.slideLeft
        (pushView envW 1 ViewAnimation.slideLeft s2w)).focusStack.length
      = s2w.focusStack.length :=
  pushView_popView_focus_roundtrip envW 1 ViewAnimation.slideLeft ViewAnimation.slideLeft s2w
    (by decide) (by decide)

/-! ### The pop hide-completion path -/

/-- Two stacked views with the bottom one hidden: C7 counterexample input. -/
def s7cex : AppState := { mkState [0, 1] [] none with hiddenFlag := fun w => w == 0 }

/-- C7 counterexample: popping view 1 with the cross-fade animation over the
hidden view 0, the hide-completion path emits `willAppear`/`playShow` for
view 0 and then unblocks input, without ever invoking the caller's callback
(the callback is attached to the show animation's completion instead), so
the claimed order "play show, then invoke the callback, then unblock input"
does not hold on this input. -/
theorem popView_fade_completion_callback_counterexample :
    (runPopHide 1 ViewAnimation.fade true s7cex).2
      = [Event.clearForceTranslucent 1, Event.removeFromStack 1, Event.destroy 1,
         Event.willAppear 0, Event.playShow 0, Event.unblockedInputs]
    ∧ Event.invokeCallback ∉ (runPopHide 1 ViewAnimation.fade true s7cex).2 := by
  decide

/-- C7 (amended): a cross-fade `popView` on a stack of at least two views
registers the hide completion for the popped top view; when that completion
runs it performs, in order: clear the popped view's force-translucent flag,
remove it from the stack, destroy it; then, since a view remains and the
cross-fade waits, if the newly exposed view is hidden it receives
`willAppear` and its show animation starts with the caller's callback
deferred to that animation's completion, otherwise the callback is invoked
directly; finally input is unblocked. -/
theorem popView_fade_completion_order (env : Env) (s t : AppState) (last newLast : ViewId)
    (hlen : 2 ≤ s.viewStack.length)
    (hlast : s.viewStack.getLast? = some last)
    (hnew : t.viewStack.dropLast.getLast? = some newLast) :
    (popView env ViewAnimation.fade s).pending
      = s.pending ++ [PendingKind.hideCompletePop last ViewAnimation.fade true]
    ∧ (runPopHide last ViewAnimation.fade true t).2
      = [Event.clearForceTranslucent last, Event.removeFromStack last, Event.destroy last]
        ++ (if t.hiddenFlag newLast
            then [Event.willAppear newLast, Event.playShow newLast]
            else [Event.invokeCallback])
        ++ [Event.unblockedInputs]
    ∧ (t.hiddenFlag newLast = true →
        (runPopHide last ViewAnimation.fade true t).1.pending
          = t.pending ++ [PendingKind.showCallback]) := by
  have hlen1 : 1 < s.viewStack.length := by omega
  have hpos : 0 < t.viewStack.dropLast.length := by
    have hne : t.viewStack.dropLast ≠ [] := by
      intro h
      rw [h] at hnew
      simp at hnew
    exact List.length_pos.mpr hne
  have hpos2 : 1 < t.viewStack.length := by
    have h' := hpos
    rw [List.length_dropLast] at h'
    omega
  refine ⟨?_, ?_, ?_⟩
  · rw [popView_unfold env ViewAnimation.fade s last hlen1 hlast]
    have hbeq : (ViewAnimation.fade == ViewAnimation.fade) = true := rfl
    rw [hbeq, popShowEarly_wait]
    simp
  · by_cases hh : t.hiddenFlag newLast <;>
      simp [runPopHide, hnew, hpos, hpos2, hh]
  · intro hh
    simp [runPopHide, hnew, hpos, hpos2, hh]

/-- Two stacked views, nothing hidden: C7 witness input. -/
def s7w : AppState := mkState [4, 5] [] none

theorem popView_fade_completion_order_witness :
    (popView envW ViewAnimation.fade s7w).pending
      = s7w.pending ++ [PendingKind.hideCompletePop 5 ViewAnimation.fade true]
    ∧ (runPopHide 5 ViewAnimation.fade true s7w).2
      = [Event.clearForceTranslucent 5, Event.removeFromStack 5, Event.destroy 5]
        ++ (if s7w.hiddenFlag 4 then [Event.willAppear 4, Event.playShow 4]
            else [Event.invokeCallback])
        ++ [Event.unblockedInputs] := by
  have h := popView_fade_completion_order envW s7w s7w 5 4 (by decide) (by decide) (by decide)
  exact ⟨h.1, h.2.1⟩

/-! ### Navigation dead ends -/

/-- C6: `navigate` changes the current focus only when the upward walk finds
a candidate: with no current focus, or with a focus that has no parent, it
is a no-op leaving the state untouched; when the walk up the parent chain
exhausts without a `getNextFocus` candidate, the current focus node plays
the directional shake cue, focus does not change, and the call returns
normally with no other effect. -/
theorem navigate_dead_end_no_change (env : Env) (dir : FocusDirection) (s : AppState) :
    (s.currentFocus = none → navigate env dir s = (s, []))
    ∧ (∀ cf, s.currentFocus = some cf → env.parent cf = none →
        navigate env dir s = (s, []))
    ∧ (∀ cf p, s.currentFocus = some cf → env.parent cf = some p →
        navWalk env dir cf = none →
        navigate env dir s = (s, [Event.shake cf dir])) := by
  refine ⟨?_, ?_, ?_⟩
  · intro hcf
    simp [navigate, hcf]
  · intro cf hcf hpar
    simp [navigate, hcf, hpar]
  · intro cf p hcf hpar hw
    simp [navigate, hcf, hpar, hw]

/-- Focus on the leaf view 1 (child of the root 0): C6 witness input. -/
def s6w : AppState := mkState [0] [] (some 1)

theorem navigate_dead_end_no_change_witness :
    navigate envW FocusDirection.down s6w = (s6w, [Event.shake 1 FocusDirection.down]) := by
  refine (navigate_dead_end_no_change envW FocusDirection.down s6w).2.2 1 0 rfl (by decide) ?_
  simp [navWalk, envW]

/-! ### The button-repeat filter -/

theorem navigate_fst_repetitionOldFocus (env : Env) (dir : FocusDirection) (s : AppState) :
    (navigate env dir s).1.repetitionOldFocus = s.repetitionOldFocus := by
  rcases hcf : s.currentFocus with _ | cf
  · simp [navigate, hcf]
  · rcases hp : env.parent cf with _ | p
    · simp [navigate, hcf, hp]
    · rcases hw : navWalk env dir cf with _ | nf <;> simp [navigate, hcf, hp, hw]

/-- C9: a repeat dispatch (`repeating = true`) whose current focus equals
the focus recorded at the most recent non-suppressed dispatch returns
immediately with the state untouched and no listener or navigation event;
consequently, after any dispatch (with inputs unblocked) that leaves the
current focus unchanged, the following repeat of the same button is
suppressed. -/
theorem repeat_press_suppression (env : Env) (button : Nat) (s : AppState) :
    (s.repetitionOldFocus = s.currentFocus →
      onGamepadButtonPressed env button true s = (s, []))
    ∧ (∀ rep : Bool, s.blockInputsTokens = 0 →
        (onGamepadButtonPressed env button rep s).1.currentFocus = s.currentFocus →
        onGamepadButtonPressed env button true (onGamepadButtonPressed env button rep s).1
          = ((onGamepadButtonPressed env button rep s).1, [])) := by
  have hA : ∀ t : AppState, t.repetitionOldFocus = t.currentFocus →
      onGamepadButtonPressed env button true t = (t, []) := by
    intro t hrep
    by_cases ht : t.blockInputsTokens = 0
    · simp [onGamepadButtonPressed, ht, hrep]
    · simp [onGamepadButtonPressed, ht]
  refine ⟨hA s, ?_⟩
  intro rep ht hcf
  refine hA _ ?_
  by_cases hg : rep = true ∧ s.repetitionOldFocus = s.currentFocus
  · simp only [onGamepadButtonPressed, ht] at hcf ⊢
    rw [if_neg (by simp), if_pos hg]
    exact hg.2
  · simp only [onGamepadButtonPressed, ht] at hcf ⊢
    rw [if_neg (by simp), if_neg hg] at hcf ⊢
    split_ifs at hcf ⊢ with h1 h2 h3 h4 h5
    · rfl
    · simp only [navigate_fst_repetitionOldFocus]
      exact hcf.symm
    · simp only [navigate_fst_repetitionOldFocus]
      exact hcf.symm
    · simp only [navigate_fst_repetitionOldFocus]
      exact hcf.symm
    · simp only [navigate_fst_repetitionOldFocus]
      exact hcf.symm
    · rfl

/-- Focus equal to the recorded repeat focus: C9 witness input. -/
def s9w : AppState := { mkState [0] [] (some 1) with repetitionOldFocus := some 1 }

theorem repeat_press_suppression_witness :
    onGamepadButtonPressed envW KEY_A true s9w = (s9w, []) :=
  (repeat_press_suppression envW KEY_A s9w).1 rfl

/-! ### The input-block counter -/

@[simp] theorem blockCount_nil : blockCount [] = 0 := rfl

@[simp] theorem unblockCount_nil : unblockCount [] = 0 := rfl

@[simp] theorem blockCount_cons_block (l : List InputOp) : blockCount (InputOp.block :: l) = blockCount l + 1 := by
  have hb : (InputOp.block == InputOp.block) = true := by decide
  simp [blockCount, List.count_cons, hb]

@[simp] theorem blockCount_cons_unblock (l : List InputOp) : blockCount (InputOp.unblock :: l) = blockCount l := by
  have hb : (InputOp.unblock == InputOp.block) = false := by decide
  simp [blockCount, List.count_cons, hb]

@[simp] theorem unblockCount_cons_block (l : List InputOp) : unblockCount (InputOp.block :: l) = unblockCount l := by
  have hb : (InputOp.block == InputOp.unblock) = false := by decide
  simp [unblockCount, List.count_cons, hb]

@[simp] theorem unblockCount_cons_unblock (l : List InputOp) : unblockCount (InputOp.unblock :: l) = unblockCount l + 1 := by
  have hb : (InputOp.unblock == InputOp.unblock) = true := by decide
  simp [unblockCount, List.count_cons, hb]

theorem runInputOps_cons (op : InputOp) (ops : List InputOp) (s : AppState) :
    runInputOps (op :: ops) s = runInputOps ops (applyInputOp s op) := rfl

theorem runInputOps_append (l1 l2 : List InputOp) (s : AppState) :
    runInputOps (l1 ++ l2) s = runInputOps l2 (runInputOps l1 s) :=
  List.foldl_append _ _ _ _

theorem runInputOps_nonneg (ops : List InputOp) :
    ∀ s : AppState, 0 ≤ s.blockInputsTokens →
      0 ≤ (runInputOps ops s).blockInputsTokens := by
  induction ops with
  | nil => intro s h; exact h
  | cons op rest ih =>
    intro s h
    rw [runInputOps_cons]
    apply ih
    cases op with
    | block =>
      show 0 ≤ (blockInputs s).blockInputsTokens
      simp only [blockInputs_tokens]
      omega
    | unblock =>
      show 0 ≤ (unblockInputs s).blockInputsTokens
      rw [unblockInputs]
      split_ifs with h'
      · show 0 ≤ s.blockInputsTokens - 1
        omega
      · omega

theorem runInputOps_exact (ops : List InputOp) :
    ∀ s : AppState,
      (∀ n, (unblockCount (ops.take n) : Int)
          ≤ s.blockInputsTokens + blockCount (ops.take n)) →
      (runInputOps ops s).blockInputsTokens
        = s.blockInputsTokens + blockCount ops - unblockCount ops := by
  induction ops with
  | nil =>
    intro s _
    simp [runInputOps]
  | cons op rest ih =>
    intro s hpre
    rw [runInputOps_cons]
    cases op with
    | block =>
      have h' : ∀ n, (unblockCount (rest.take n) : Int)
          ≤ (blockInputs s).blockInputsTokens + blockCount (rest.take n) := by
        intro n
        have h0 := hpre (n + 1)
        rw [List.take_succ_cons] at h0
        simp only [blockCount_cons_block, unblockCount_cons_block, blockInputs_tokens] at h0 ⊢
        push_cast at h0 ⊢
        omega
      have heq := ih (blockInputs s) h'
      simp only [blockInputs_tokens] at heq
      rw [show applyInputOp s InputOp.block = blockInputs s from rfl, heq]
      simp only [blockCount_cons_block, unblockCount_cons_block]
      push_cast
      ring
    | unblock =>
      have hpos : 0 < s.blockInputsTokens := by
        have h0 := hpre 1
        rw [List.take_succ_cons] at h0
        simp only [unblockCount_cons_unblock, blockCount_cons_unblock, List.take_zero,
          blockCount_nil, unblockCount_nil] at h0
        push_cast at h0
        omega
      have happ : applyInputOp s InputOp.unblock
          = { s with blockInputsTokens := s.blockInputsTokens - 1 } := by
        simp [applyInputOp, unblockInputs, hpos]
      have h' : ∀ n, (unblockCount (rest.take n) : Int)
          ≤ ({ s with blockInputsTokens := s.blockInputsTokens - 1 } :
              AppState).blockInputsTokens + blockCount (rest.take n) := by
        intro n
        have h0 := hpre (n + 1)
        rw [List.take_succ_cons] at h0
        simp only [unblockCount_cons_unblock, blockCount_cons_unblock] at h0
        show (unblockCount (rest.take n) : Int)
          ≤ s.blockInputsTokens - 1 + blockCount (rest.take n)
        push_cast at h0 ⊢
        omega
      have heq := ih _ h'
      rw [happ, heq]
      show s.blockInputsTokens - 1 + blockCount rest - unblockCount rest
        = s.blockInputsTokens + blockCount (InputOp.unblock :: rest)
          - unblockCount (InputOp.unblock :: rest)
      simp only [blockCount_cons_unblock, unblockCount_cons_unblock]
      push_cast
      ring

theorem runInputOps_replicate_block (N : Nat) :
    ∀ s : AppState,
      (runInputOps (List.replicate N InputOp.block) s).blockInputsTokens
        = s.blockInputsTokens + N := by
  induction N with
  | zero => intro s; simp [runInputOps]
  | succ n ih =>
    intro s
    rw [List.replicate_succ, runInputOps_cons,
      show applyInputOp s InputOp.block = blockInputs s from rfl, ih]
    simp only [blockInputs_tokens]
    push_cast
    ring

theorem runInputOps_replicate_unblock (k : Nat) :
    ∀ s : AppState, (k : Int) ≤ s.blockInputsTokens →
      (runInputOps (List.replicate k InputOp.unblock) s).blockInputsTokens
        = s.blockInputsTokens - k := by
  induction k with
  | zero => intro s _; simp [runInputOps]
  | succ n ih =>
    intro s h
    have hpos : 0 < s.blockInputsTokens := by
      push_cast at h
      omega
    have happ : applyInputOp s InputOp.unblock
        = { s with blockInputsTokens := s.blockInputsTokens - 1 } := by
      simp [applyInputOp, unblockInputs, hpos]
    have h' : (n : Int) ≤ ({ s with blockInputsTokens := s.blockInputsTokens - 1 } :
        AppState).blockInputsTokens := by
      show (n : Int) ≤ s.blockInputsTokens - 1
      push_cast at h
      omega
    rw [List.replicate_succ, runInputOps_cons, happ, ih _ h']
    show s.blockInputsTokens - 1 - n = s.blockInputsTokens - (n + 1 : Nat)
    push_cast
    ring

/-- Fresh zero-counter state: C3 counterexample input. -/
def s3cex : AppState := mkState [] [] none

/-- C3 counterexample: for the call sequence unblock-then-block starting
from zero, the counter ends at 1, but the number of blocks minus unblocks
saturated at zero is 0, so the counter does not equal that formula for every
sequence (the early unblock saturates and is forgotten). -/
theorem input_block_counter_formula_counterexample :
    (runInputOps [InputOp.unblock, InputOp.block] s3cex).blockInputsTokens ≠
      max ((blockCount [InputOp.unblock, InputOp.block] : Int)
        - unblockCount [InputOp.unblock, InputOp.block]) 0 := by
  decide

/-- C3 (amended): starting from a zero counter, the counter never goes
negative; the counter equals blocks minus unblocks for every sequence in
which no prefix has more unblocks than blocks; N nested blocks then k ≤ N
unblocks leave it at N - k (so dispatch, gated on the counter being zero,
resumes exactly after N unblocks); an (N+1)-th unblock leaves it at zero;
and gamepad dispatch returns immediately whenever the counter is nonzero. -/
theorem input_block_counter_behavior (s : AppState) (h0 : s.blockInputsTokens = 0) :
    (∀ ops : List InputOp, 0 ≤ (runInputOps ops s).blockInputsTokens)
    ∧ (∀ ops : List InputOp,
        (∀ n, (unblockCount (ops.take n) : Int) ≤ blockCount (ops.take n)) →
        (runInputOps ops s).blockInputsTokens
          = (blockCount ops : Int) - unblockCount ops)
    ∧ (∀ N k : Nat, k ≤ N →
        (runInputOps (List.replicate N InputOp.block ++ List.replicate k InputOp.unblock)
            s).blockInputsTokens = (N : Int) - k)
    ∧ (∀ N : Nat,
        (runInputOps (List.replicate N InputOp.block
            ++ List.replicate (N + 1) InputOp.unblock) s).blockInputsTokens = 0)
    ∧ (∀ (env : Env) (button : Nat) (rep : Bool) (t : AppState),
        t.blockInputsTokens ≠ 0 → onGamepadButtonPressed env button rep t = (t, [])) := by
  have hstageN : ∀ N : Nat,
      (runInputOps (List.replicate N InputOp.block) s).blockInputsTokens = (N : Int) := by
    intro N
    rw [runInputOps_replicate_block, h0]
    ring
  refine ⟨?_, ?_, ?_, ?_, ?_⟩
  · intro ops
    exact runInputOps_nonneg ops s (by omega)
  · intro ops hpre
    have := runInputOps_exact ops s (by intro n; rw [h0]; simpa using hpre n)
    rw [this, h0]
    ring
  · intro N k hk
    rw [runInputOps_append, runInputOps_replicate_unblock k _ (by rw [hstageN]; exact_mod_cast hk),
      hstageN]
  · intro N
    rw [List.replicate_succ', ← List.append_assoc, runInputOps_append]
    have hmid : (runInputOps (List.replicate N InputOp.block
        ++ List.replicate N InputOp.unblock) s).blockInputsTokens = 0 := by
      rw [runInputOps_append, runInputOps_replicate_unblock N _ (by rw [hstageN]), hstageN]
      ring
    show (unblockInputs (runInputOps (List.replicate N InputOp.block
        ++ List.replicate N InputOp.unblock) s)).blockInputsTokens = 0
    rw [unblockInputs, if_neg (by rw [hmid]; omega)]
    exact hmid
  · intro env button rep t htok
    simp [onGamepadButtonPressed, htok]

/-- Fresh zero-counter state: C3 witness input. -/
def s3w : AppState := mkState [] [] none

theorem input_block_counter_behavior_witness :
    (runInputOps (List.replicate 2 InputOp.block ++ List.replicate 3 InputOp.unblock)
        s3w).blockInputsTokens = 0
    ∧ (runInputOps (List.replicate 2 InputOp.block ++ List.replicate 1 InputOp.unblock)
        s3w).blockInputsTokens = (2 : Int) - 1 := by
  have h := input_block_counter_behavior s3w rfl
  exact ⟨h.2.2.2.1 2, h.2.2.1 2 1 (by decide)⟩

end Borealis
